import Mathlib

/-!
# Verification of the etcdv3 SDK adapter

A shallow embedding of `src/etcdv3/etcdv3.go` (package `etcdv3` of the
etcdsdk repository).  The underlying etcd client is the external
collaborator of the spec (`get`, `getPrefix`, `put`, `delete`,
`transactionalPutIfAbsent`, `listClusterMembers`, `memberStatus`); it is
modelled as a pure key-value store (an association list) together with an
environment that fixes the network behaviour (call durations and
transient failures) of one invocation.  Deadlines are modelled by a
natural-number time budget: a remote call with a cost that exceeds the
remaining budget fails with a timeout, and a single budget is threaded
through all calls made under one Go context.
-/

/-- Character strings, modelled as lists of characters.  Go compares
strings byte-wise; on valid UTF-8 data the byte-wise order agrees with
the order of Unicode scalar values, so the lexicographic order on
`List Char` is exactly the byte-wise order used by the source. -/
abbrev Str := List Char

/-- Embedding of a Lean string literal, used for concrete inputs. -/
def str (s : String) : Str := s.data

/-- `model.Node`: either a virtual directory (a common path segment with
no direct value) or a leaf key holding a value. -/
structure Node where
  Path : Str
  Value : Str
  IsDir : Bool
deriving DecidableEq

/-- Error outcomes of the SDK operations.  `ERR_KEY_NOT_FOUND` and
`ERR_ADD_KEY` are the sentinels of the `model` package; `timeout` models
a context-deadline-exceeded error returned by a remote call; `storeErr`
models any other transport failure of a remote call;
`panicIndexOutOfRange` models a Go runtime panic caused by indexing an
empty slice (a panic is a failure of the call, not a value). -/
inductive SdkErr where
  | ERR_KEY_NOT_FOUND
  | ERR_ADD_KEY
  | timeout
  | storeErr
  | panicIndexOutOfRange
deriving DecidableEq

/-- The key-value store seen by one invocation: an association list of
(key, value) pairs.  Keys are unique in a real store; theorems that need
uniqueness state it as a hypothesis. -/
abbrev Store := List (Str × Str)

/-- `DefaultTimeout` (etcdv3.go:19): the shared deadline, in seconds,
put on each Go context.  The Go package variable is never reassigned in
the source, so it is modelled as the constant 5. -/
def DefaultTimeout : Nat := 5

/-- The first path segment of a non-empty remainder `r`: its first
character (which may or may not be a separator) followed by the run of
non-separator characters after it.  `firstChunk r` is a non-empty
initial part of `r`, and it equals `r` exactly when `r` has no further
separator after its first character. -/
def firstChunk : Str → Str
  | [] => []
  | c :: rest => c :: rest.takeWhile (fun d => d ≠ '/')

/-- Modelled from the spec: the method `ConvertToPath` is called by the
source (etcdv3.go:123 and etcdv3.go:158) but defined in a file of the
package that is not among the sources under review.  Following spec
4.1, one scanned entry is converted as: strip the leading query path
from the full key; an empty remainder is ignored (a node does not list
itself); a remainder with a further separator is collapsed to its first
segment and marked as a directory (no value); otherwise the entry is a
leaf whose path is the full key.  Directory paths carry no trailing
separator, matching the spec's worked example
(`list("/a")` on `"/a/c/d"` yields path `"/a/c"`). -/
def convertEntry (p : Str) (kv : Str × Str) : Option Node :=
  let r := kv.1.drop p.length
  if r = [] then none
  else if (firstChunk r).length < r.length then
    some { Path := p ++ firstChunk r, Value := [], IsDir := true }
  else
    some { Path := kv.1, Value := [], IsDir := false }

/-- Helper for `dedupByPath`: left fold that appends a node to the
accumulator only when no node with the same path was kept before. -/
def dedupAux (acc : List Node) : List Node → List Node
  | [] => acc
  | n :: ns =>
    if acc.any (fun m => m.Path = n.Path) then dedupAux acc ns
    else dedupAux (acc ++ [n]) ns

/-- Deduplication by resulting path (spec 4.1): the first node produced
for a given path is kept, later nodes with the same path are dropped. -/
def dedupByPath (l : List Node) : List Node := dedupAux [] l

/-- Modelled from the spec: `ConvertToPath` (spec 4.1) turns the flat
scan result into the deduplicated one-level listing.  Keys are already
character strings in this embedding, so the `DecodingError` branch for
malformed bytes cannot arise and the conversion is total. -/
def ConvertToPath (p : Str) (kvs : List (Str × Str)) : List Node :=
  dedupByPath (kvs.filterMap (convertEntry p))

/-- The collaborator's single-key fetch `cli.Get(ctx, k)` with no
options: the entries of the store whose key is exactly `k` (at most one
in a store with unique keys). -/
def exactGet (s : Store) (k : Str) : Store :=
  s.filter (fun kv => decide (kv.1 = k))

/-- The collaborator's scan `cli.Get(ctx, p, WithPrefix(), WithKeysOnly())`
(etcdv3.go:114-115): every entry whose key starts with `p`, in whatever
order the store holds them, with the values blanked out (keys only). -/
def scanKeysOnly (s : Store) (p : Str) : Store :=
  (s.filter (fun kv => decide (p <+: kv.1))).map (fun kv => (kv.1, []))

/-- The collaborator's `cli.Put`: unconditional overwrite-or-create. -/
def putKV (s : Store) (k v : Str) : Store :=
  s.filter (fun kv => decide (kv.1 ≠ k)) ++ [(k, v)]

/-- Value currently stored under a key. -/
def lookupKV (s : Store) (k : Str) : Option Str :=
  (s.find? (fun kv => decide (kv.1 = k))).map (fun kv => kv.2)

/-- `Add` (etcdv3.go:167-191): one transaction whose condition compares
`Version(path)` with 0 (the version of an absent key) and whose `Then`
branch is the put.  The whole conditional write is a single step of this
model — there is no intermediate state a concurrent writer could
observe.  When the condition fails (`!txnResp.Succeeded`) the store is
left untouched and `ERR_ADD_KEY` is returned. -/
def sdkAdd (s : Store) (k v : Str) : Store × Option SdkErr :=
  if s.any (fun kv => decide (kv.1 = k)) then (s, some .ERR_ADD_KEY)
  else (putKV s k v, none)

/-- `Put` (etcdv3.go:194-202): unconditional overwrite-or-create. -/
def Put (s : Store) (k v : Str) : Store × Option SdkErr :=
  (putKV s k v, none)

/-- `Del` (etcdv3.go:205-213): unconditional delete of the exact key.
The collaborator's delete succeeds whether or not the key exists (etcd
merely reports how many keys were removed), so the operation never
produces a store-level error; transport failures are outside this
store-level model. -/
def Del (s : Store) (k : Str) : Store × Option SdkErr :=
  (s.filter (fun kv => decide (kv.1 ≠ k)), none)

/-- `Val` (etcdv3.go:146-164): exact fetch of `path`; zero results give
`ERR_KEY_NOT_FOUND`; otherwise the result list is put through
`ConvertToPath` and its element 0 is taken with no length guard — on an
empty conversion that Go indexing panics, modelled by the distinguished
`panicIndexOutOfRange` failure. -/
def Val (s : Store) (p : Str) : Except SdkErr Node :=
  let kvs := exactGet s p
  if kvs.length = 0 then .error .ERR_KEY_NOT_FOUND
  else
    match (ConvertToPath p kvs).head? with
    | some n => .ok n
    | none => .error .panicIndexOutOfRange

/-- Sorting relation used by the sort at etcdv3.go:126-128: ascending by
`Path` under the lexicographic (byte-wise) string order. -/
def nodeLe (a b : Node) : Prop := a.Path ≤ b.Path

instance : DecidableRel nodeLe :=
  fun a b => inferInstanceAs (Decidable (a.Path ≤ b.Path))

instance : IsTotal Node nodeLe := ⟨fun a b => le_total a.Path b.Path⟩

instance : IsTrans Node nodeLe := ⟨fun _ _ _ hab hbc => le_trans hab hbc⟩

/-- The sort at etcdv3.go:126-128 (`sort.Slice` by `Path`), modelled as
insertion sort by `nodeLe`. -/
def sortNodes (l : List Node) : List Node := List.insertionSort nodeLe l

/-- Network behaviour of one `List` invocation: the store contents, the
duration and transient-failure flag of the initial scan, and the
duration and transient-failure flag of each per-key fetch. -/
structure ListEnv where
  store : Store
  scanCost : Nat
  scanFails : Bool
  fetchCost : Str → Nat
  fetchFails : Str → Bool

/-- The per-key value hydration loop of `List` (etcdv3.go:131-140),
threading the remaining time `t` of the shared context.  The loop has
no directory check: a fetch is issued for every node.  A fetch whose
cost exceeds the remaining time fails at the deadline (leaving no time
for later fetches); a failed fetch — timeout or transient — is logged
and skipped, keeping the node with its value untouched.  On success the
value is set only when the fetch returned at least one entry.  The
second component records the paths a fetch was issued for. -/
def hydrate (env : ListEnv) : Nat → List Node → List Node × List Str
  | _, [] => ([], [])
  | t, n :: ns =>
    if env.fetchCost n.Path > t then
      let r := hydrate env 0 ns
      (n :: r.1, n.Path :: r.2)
    else if env.fetchFails n.Path then
      let r := hydrate env (t - env.fetchCost n.Path) ns
      (n :: r.1, n.Path :: r.2)
    else
      let r := hydrate env (t - env.fetchCost n.Path) ns
      match exactGet env.store n.Path with
      | [] => (n :: r.1, n.Path :: r.2)
      | kv :: _ => ({ n with Value := kv.2 } :: r.1, n.Path :: r.2)

/-- Result of one `List` invocation: the returned value of the call and
the trace of paths for which a follow-up fetch was issued. -/
structure ListOutcome where
  result : Except SdkErr (List Node)
  fetched : List Str

/-- `List` (etcdv3.go:109-143): one context with the shared
`DefaultTimeout` deadline covers the scan and every per-key fetch.  A
scan failure is returned to the caller; zero matches return an empty
list with no error before the converter is ever consulted; otherwise
the scan result is converted, sorted by path and hydrated with the
remaining time of the shared deadline.  Errors inside the hydration
loop are logged and skipped (the loop shadows `err`), so a started
hydration always ends in a `.ok` result. -/
def sdkList (env : ListEnv) (p : Str) : ListOutcome :=
  if env.scanCost > DefaultTimeout then ⟨.error .timeout, []⟩
  else if env.scanFails then ⟨.error .storeErr, []⟩
  else
    let kvs := scanKeysOnly env.store p
    if kvs.length = 0 then ⟨.ok [], []⟩
    else
      let r := hydrate env (DefaultTimeout - env.scanCost)
        (sortNodes (ConvertToPath p kvs))
      ⟨.ok r.1, r.2⟩

/-- One entry of the membership roster returned by `cli.MemberList`. -/
structure MemberInfo where
  ID : Nat
  Name : Str
  PeerURLs : List Str
  ClientURLs : List Str
deriving DecidableEq

/-- `model.ROLE_*`. -/
inductive MemberRole where
  | ROLE_FOLLOWER
  | ROLE_LEADER
deriving DecidableEq

/-- `model.STATUS_*`. -/
inductive MemberStatus where
  | STATUS_HEALTHY
  | STATUS_UNHEALTHY
deriving DecidableEq

/-- The relevant fields of a successful `cli.Status` probe: the database
size, the id of the cluster leader as reported by the probed server, and
the id the probed server reports for itself in the response header. -/
structure StatusResp where
  DbSize : Int
  Leader : Nat
  HeaderMemberId : Nat
deriving DecidableEq

/-- `model.Member`, with `ID` the decimal rendering of the roster id
(`fmt.Sprint(member.ID)`). -/
structure Member where
  ID : Str
  Name : Str
  PeerURLs : List Str
  ClientURLs : List Str
  Role : MemberRole
  Status : MemberStatus
  DbSize : Int
deriving DecidableEq

/-- `fmt.Sprint` on an unsigned integer: its decimal digits. -/
def sprintNat (n : Nat) : Str := (Nat.repr n).data

/-- Environment of one `Members` invocation: the roster and the outcome
of the status probe of each endpoint (`none` models a probe that failed
or timed out; probes run under independent deadlines). -/
structure ClusterEnv where
  roster : List MemberInfo
  probe : Str → Option StatusResp

/-- The body of the roster loop of `Members` (etcdv3.go:223-246): a
member with no client endpoint is skipped entirely; otherwise the member
starts as Follower/Unhealthy/0 and its first client endpoint is probed;
a failed probe leaves the defaults (the error is swallowed); a
successful probe upgrades the status, fills the database size, and makes
the member the leader exactly when the reported leader id equals the id
the probed server reports for itself. -/
def classifyMember (probe : Str → Option StatusResp) (mi : MemberInfo) :
    Option Member :=
  match mi.ClientURLs with
  | [] => none
  | u :: _ =>
    let base : Member :=
      { ID := sprintNat mi.ID, Name := mi.Name, PeerURLs := mi.PeerURLs,
        ClientURLs := mi.ClientURLs, Role := .ROLE_FOLLOWER,
        Status := .STATUS_UNHEALTHY, DbSize := 0 }
    match probe u with
    | none => some base
    | some st =>
      some { base with
        Status := .STATUS_HEALTHY
        DbSize := st.DbSize
        Role := if st.Leader = st.HeaderMemberId then .ROLE_LEADER
                else .ROLE_FOLLOWER }

/-- `Members` (etcdv3.go:216-248): classify every roster entry in roster
order. -/
def Members (env : ClusterEnv) : List Member :=
  env.roster.filterMap (classifyMember env.probe)

/-! ### Store helper lemmas -/

theorem lookupKV_eq_none (s : Store) (k : Str) :
    lookupKV s k = none ↔ ∀ kv ∈ s, kv.1 ≠ k := by
  simp [lookupKV, List.find?_eq_none]

theorem lookupKV_append_absent (s : Store) (k v : Str)
    (h : ∀ kv ∈ s, kv.1 ≠ k) :
    lookupKV (s ++ [(k, v)]) k = some v := by
  have h0 : s.find? (fun kv => decide (kv.1 = k)) = none := by
    rw [List.find?_eq_none]
    intro kv hkv
    simpa using h kv hkv
  have h1 : List.find? (fun kv => decide (kv.1 = k)) [(k, v)] = some (k, v) := by
    simp [List.find?]
  simp [lookupKV, List.find?_append, h0, h1]

theorem filter_ne_key_of_absent (s : Store) (k : Str)
    (h : ∀ kv ∈ s, kv.1 ≠ k) :
    s.filter (fun kv => decide (kv.1 ≠ k)) = s := by
  rw [List.filter_eq_self]
  intro a ha
  simpa using h a ha

/-- C3: `Add` is a single conditional write deciding on presence of the
key: on an absent key it appends the pair and succeeds; the value is
then stored, and an immediate second `Add` of the same key fails with
the `ERR_ADD_KEY` sentinel; on a present key it fails with that sentinel
and the store — in particular the previously stored value — is
unchanged. -/
theorem sdkAdd_conditional (s : Store) (k v v2 w : Str) :
    (lookupKV s k = none →
      sdkAdd s k v = (s ++ [(k, v)], none) ∧
      lookupKV (sdkAdd s k v).1 k = some v ∧
      sdkAdd (sdkAdd s k v).1 k v2 = ((sdkAdd s k v).1, some .ERR_ADD_KEY)) ∧
    (lookupKV s k = some w →
      sdkAdd s k v2 = (s, some .ERR_ADD_KEY) ∧
      lookupKV (sdkAdd s k v2).1 k = some w) := by
  constructor
  · intro h
    have habs : ∀ kv ∈ s, kv.1 ≠ k := (lookupKV_eq_none s k).mp h
    have hany : s.any (fun kv => decide (kv.1 = k)) = false := by
      rw [List.any_eq_false]
      intro kv hkv
      simpa using habs kv hkv
    have hput : putKV s k v = s ++ [(k, v)] := by
      unfold putKV
      rw [filter_ne_key_of_absent s k habs]
    have h1 : sdkAdd s k v = (s ++ [(k, v)], none) := by
      simp [sdkAdd, hany, hput]
    refine ⟨h1, ?_, ?_⟩
    · rw [h1]
      exact lookupKV_append_absent s k v habs
    · rw [h1]
      have hany2 : (s ++ [(k, v)]).any (fun kv => decide (kv.1 = k)) = true := by
        simp
      simp [sdkAdd, hany2]
  · intro h
    obtain ⟨kv0, hfind, hval⟩ := Option.map_eq_some'.mp h
    have hmem : kv0 ∈ s := List.mem_of_find?_eq_some hfind
    have hkey : kv0.1 = k := by simpa using List.find?_some hfind
    have hany : s.any (fun kv => decide (kv.1 = k)) = true := by
      rw [List.any_eq_true]
      exact ⟨kv0, hmem, by simp [hkey]⟩
    have h2 : sdkAdd s k v2 = (s, some .ERR_ADD_KEY) := by simp [sdkAdd, hany]
    exact ⟨h2, by rw [h2]; exact h⟩

theorem sdkAdd_conditional_witness :
    lookupKV [(str "/x", str "0")] (str "/k") = none ∧
    lookupKV [(str "/k", str "V")] (str "/k") = some (str "V") ∧
    sdkAdd [(str "/x", str "0")] (str "/k") (str "V") =
      ([(str "/x", str "0"), (str "/k", str "V")], none) ∧
    sdkAdd [(str "/k", str "V")] (str "/k") (str "V2") =
      ([(str "/k", str "V")], some .ERR_ADD_KEY) ∧
    lookupKV (sdkAdd [(str "/k", str "V")] (str "/k") (str "V2")).1 (str "/k") =
      some (str "V") :=
  ⟨by decide, by decide,
   ((sdkAdd_conditional [(str "/x", str "0")] (str "/k") (str "V") (str "V2")
      (str "V")).1 (by decide)).1,
   ((sdkAdd_conditional [(str "/k", str "V")] (str "/k") (str "V") (str "V2")
      (str "V")).2 (by decide)).1,
   ((sdkAdd_conditional [(str "/k", str "V")] (str "/k") (str "V") (str "V2")
      (str "V")).2 (by decide)).2⟩

/-- C8: `Del` never reports an error — in particular not for an absent
exact key, such as a virtual directory path — and on a store holding no
entry for the key it is a complete no-op. -/
theorem Del_noop (s : Store) (k : Str) :
    (Del s k).2 = none ∧
    ((∀ kv ∈ s, kv.1 ≠ k) → Del s k = (s, none)) := by
  refine ⟨rfl, fun h => ?_⟩
  show (s.filter (fun kv => decide (kv.1 ≠ k)), (none : Option SdkErr)) = (s, none)
  rw [filter_ne_key_of_absent s k h]

theorem Del_noop_witness :
    (∀ kv ∈ [(str "/a/b", str "1")], kv.1 ≠ str "/a") ∧
    Del [(str "/a/b", str "1")] (str "/a") = ([(str "/a/b", str "1")], none) :=
  ⟨by decide, (Del_noop [(str "/a/b", str "1")] (str "/a")).2 (by decide)⟩

/-- C9: when no stored key extends the queried path, a successful scan
makes `List` return an empty listing and no error; the result is fixed
before the converter is consulted and no per-key fetch is issued. -/
theorem sdkList_empty_scan (env : ListEnv) (p : Str)
    (hcost : env.scanCost ≤ DefaultTimeout) (hok : env.scanFails = false)
    (hempty : ∀ kv ∈ env.store, ¬ p <+: kv.1) :
    sdkList env p = ⟨.ok [], []⟩ := by
  have h0 : scanKeysOnly env.store p = [] := by
    simp only [scanKeysOnly, List.map_eq_nil_iff, List.filter_eq_nil_iff]
    intro kv hkv
    simpa using hempty kv hkv
  simp [sdkList, h0, hok, Nat.not_lt.mpr hcost]

theorem sdkList_empty_scan_witness :
    (⟨[(str "/b/c", str "1")], 1, false, fun _ => 1, fun _ => false⟩ :
        ListEnv).scanCost ≤ DefaultTimeout ∧
    (∀ kv ∈ [(str "/b/c", str "1")], ¬ str "/a" <+: kv.1) ∧
    sdkList ⟨[(str "/b/c", str "1")], 1, false, fun _ => 1, fun _ => false⟩
      (str "/a") = ⟨.ok [], []⟩ :=
  ⟨by decide, by decide,
   sdkList_empty_scan ⟨[(str "/b/c", str "1")], 1, false, fun _ => 1, fun _ => false⟩
     (str "/a") (by decide) rfl (by decide)⟩

/-! ### The conversion of an exact-match singleton -/

theorem convertEntry_self (p v : Str) : convertEntry p (p, v) = none := by
  simp [convertEntry, List.drop_length]

theorem ConvertToPath_self_only (p : Str) (kvs : List (Str × Str))
    (h : ∀ kv ∈ kvs, kv.1 = p) :
    ConvertToPath p kvs = [] := by
  have h0 : kvs.filterMap (convertEntry p) = [] := by
    rw [List.filterMap_eq_nil_iff]
    intro kv hkv
    have hk : kv = (p, kv.2) := by
      rw [Prod.ext_iff]
      exact ⟨h kv hkv, rfl⟩
    rw [hk]
    exact convertEntry_self p kv.2
  simp [ConvertToPath, h0, dedupByPath, dedupAux]

/-- C4 (amended): `Val` fails with the `ERR_KEY_NOT_FOUND` sentinel
exactly when the exact fetch returns zero results — a missing key is
never an empty-value success — and whenever the fetch does return
results (all carrying the queried key itself), the conversion ignores
them all and the unguarded element-0 access fails instead of producing
a Node. -/
theorem Val_notfound_iff (s : Store) (p : Str) :
    (Val s p = .error .ERR_KEY_NOT_FOUND ↔ exactGet s p = []) ∧
    (exactGet s p ≠ [] → Val s p = .error .panicIndexOutOfRange) := by
  have hkeys : ∀ kv ∈ exactGet s p, kv.1 = p := by
    intro kv h
    have := (List.mem_filter.mp h).2
    simpa using this
  have hconv : ConvertToPath p (exactGet s p) = [] :=
    ConvertToPath_self_only p (exactGet s p) hkeys
  by_cases hE : exactGet s p = []
  · have hv : Val s p = .error .ERR_KEY_NOT_FOUND := by simp [Val, hE]
    exact ⟨by simp [hv, hE], fun h => absurd hE h⟩
  · have hlen : (exactGet s p).length ≠ 0 := by
      simpa [List.length_eq_zero] using hE
    have hv : Val s p = .error .panicIndexOutOfRange := by
      simp [Val, hlen, hconv]
    refine ⟨?_, fun _ => hv⟩
    rw [hv]
    simp [hE]

theorem Val_notfound_iff_witness :
    (Val [(str "/a", str "v")] (str "/b") = .error .ERR_KEY_NOT_FOUND ↔
      exactGet [(str "/a", str "v")] (str "/b") = []) ∧
    exactGet [(str "/a", str "v")] (str "/a") ≠ [] ∧
    Val [(str "/a", str "v")] (str "/a") = .error .panicIndexOutOfRange :=
  ⟨(Val_notfound_iff [(str "/a", str "v")] (str "/b")).1,
   by decide,
   (Val_notfound_iff [(str "/a", str "v")] (str "/a")).2 (by decide)⟩

/-- C4 (counterexample to the claim as stated): a store holding the key
`/a` with value `v`.  The exact fetch for `/a` returns one pair, yet the
call does not return a converter-shaped Node: the conversion of the
singleton is empty and the element-0 access fails. -/
theorem Val_singleton_cex :
    (exactGet [(str "/a", str "v")] (str "/a")).length = 1 ∧
    Val [(str "/a", str "v")] (str "/a") = .error .panicIndexOutOfRange :=
  ⟨rfl, rfl⟩

/-- C10: at the concrete store `{/a ↦ v}`, the fetch `Val "/a"` obtains
one key-value pair whose key equals the query path, `ConvertToPath`
ignores that pair (a node does not list itself), the produced list is
empty, and the unguarded index-0 access is out of range — the Go code
panics instead of returning the fetched Node. -/
theorem Val_exact_panic :
    ConvertToPath (str "/a") (exactGet [(str "/a", str "v")] (str "/a")) = [] ∧
    Val [(str "/a", str "v")] (str "/a") = .error .panicIndexOutOfRange :=
  ⟨rfl, rfl⟩

/-! ### Member classification -/

theorem classifyMember_urls (probe : Str → Option StatusResp)
    (mi : MemberInfo) (m : Member) (h : classifyMember probe mi = some m) :
    m.ClientURLs = mi.ClientURLs ∧ mi.ClientURLs ≠ [] := by
  cases hcu : mi.ClientURLs with
  | nil => simp [classifyMember, hcu] at h
  | cons u us =>
    cases hp : probe u with
    | none =>
      simp only [classifyMember, hcu, hp, Option.some.injEq] at h
      subst h
      simp
    | some st =>
      simp only [classifyMember, hcu, hp, Option.some.injEq] at h
      subst h
      simp

/-- C7: classification of cluster members.  A roster entry with no
client endpoint contributes nothing to the returned list, and every
returned member carries at least one client endpoint; every returned
member arises from classifying a roster entry.  A member whose probe
fails keeps the defaults Follower/Unhealthy/0 and is still returned (the
probe error is swallowed).  A member whose probe succeeds is Healthy,
carries the reported database size, and is the Leader exactly when the
reported cluster-leader id equals the id the probed server reports for
itself — which is the member's own id whenever the server identifies
itself consistently with the roster. -/
theorem Members_classification (probe : Str → Option StatusResp) :
    (∀ (mi : MemberInfo) (rest : List MemberInfo), mi.ClientURLs = [] →
      Members ⟨mi :: rest, probe⟩ = Members ⟨rest, probe⟩) ∧
    (∀ (roster : List MemberInfo) (m : Member),
      m ∈ Members ⟨roster, probe⟩ ↔
        ∃ mi ∈ roster, classifyMember probe mi = some m) ∧
    (∀ (roster : List MemberInfo) (m : Member),
      m ∈ Members ⟨roster, probe⟩ → m.ClientURLs ≠ []) ∧
    (∀ (mi : MemberInfo) (u : Str) (us : List Str), mi.ClientURLs = u :: us →
      probe u = none →
      classifyMember probe mi =
        some ⟨sprintNat mi.ID, mi.Name, mi.PeerURLs, mi.ClientURLs,
              .ROLE_FOLLOWER, .STATUS_UNHEALTHY, 0⟩) ∧
    (∀ (mi : MemberInfo) (u : Str) (us : List Str) (st : StatusResp),
      mi.ClientURLs = u :: us → probe u = some st →
      classifyMember probe mi =
        some ⟨sprintNat mi.ID, mi.Name, mi.PeerURLs, mi.ClientURLs,
              (if st.Leader = st.HeaderMemberId then .ROLE_LEADER
               else .ROLE_FOLLOWER),
              .STATUS_HEALTHY, st.DbSize⟩ ∧
      (st.HeaderMemberId = mi.ID →
        ∃ m, classifyMember probe mi = some m ∧
          (m.Role = .ROLE_LEADER ↔ st.Leader = mi.ID))) := by
  refine ⟨?_, ?_, ?_, ?_, ?_⟩
  · intro mi rest h
    have h0 : classifyMember probe mi = none := by
      simp [classifyMember, h]
    simp [Members, List.filterMap_cons, h0]
  · intro roster m
    simp [Members, List.mem_filterMap]
  · intro roster m hm
    obtain ⟨mi, _, hcl⟩ := List.mem_filterMap.mp hm
    obtain ⟨he, hne⟩ := classifyMember_urls probe mi m hcl
    rw [he]
    exact hne
  · intro mi u us hcu hp
    simp [classifyMember, hcu, hp]
  · intro mi u us st hcu hp
    have hcl : classifyMember probe mi =
        some ⟨sprintNat mi.ID, mi.Name, mi.PeerURLs, mi.ClientURLs,
              (if st.Leader = st.HeaderMemberId then .ROLE_LEADER
               else .ROLE_FOLLOWER),
              .STATUS_HEALTHY, st.DbSize⟩ := by
      simp [classifyMember, hcu, hp]
    refine ⟨hcl, fun hwf => ⟨_, hcl, ?_⟩⟩
    rw [hwf]
    by_cases hl : st.Leader = mi.ID
    · simp [hl]
    · simp [hl]

theorem Members_classification_witness :
    Members ⟨[⟨1, str "m1", [], []⟩, ⟨2, str "m2", [], [str "e2"]⟩],
        fun u => if u = str "e2" then some ⟨77, 2, 2⟩ else none⟩ =
      Members ⟨[⟨2, str "m2", [], [str "e2"]⟩],
        fun u => if u = str "e2" then some ⟨77, 2, 2⟩ else none⟩ ∧
    classifyMember (fun u => if u = str "e2" then some ⟨77, 2, 2⟩ else none)
        ⟨2, str "m2", [], [str "e2"]⟩ =
      some ⟨str "2", str "m2", [], [str "e2"],
            .ROLE_LEADER, .STATUS_HEALTHY, 77⟩ ∧
    classifyMember (fun u => if u = str "e2" then some ⟨77, 2, 2⟩ else none)
        ⟨3, str "m3", [], [str "e3"]⟩ =
      some ⟨str "3", str "m3", [], [str "e3"],
            .ROLE_FOLLOWER, .STATUS_UNHEALTHY, 0⟩ := by
  refine ⟨?_, ?_, ?_⟩
  · exact (Members_classification
      (fun u => if u = str "e2" then some ⟨77, 2, 2⟩ else none)).1
      ⟨1, str "m1", [], []⟩ [⟨2, str "m2", [], [str "e2"]⟩] rfl
  · have h := ((Members_classification
      (fun u => if u = str "e2" then some ⟨77, 2, 2⟩ else none)).2.2.2.2
      ⟨2, str "m2", [], [str "e2"]⟩ (str "e2") [] ⟨77, 2, 2⟩ rfl
      (by decide)).1
    simpa using h
  · exact (Members_classification
      (fun u => if u = str "e2" then some ⟨77, 2, 2⟩ else none)).2.2.2.1
      ⟨3, str "m3", [], [str "e3"]⟩ (str "e3") [] rfl (by decide)

/-! ### Hydration-loop lemmas -/

theorem hydrate_fetched (env : ListEnv) :
    ∀ (t : Nat) (ns : List Node), (hydrate env t ns).2 = ns.map Node.Path := by
  intro t ns
  induction ns generalizing t with
  | nil => rfl
  | cons n ns ih =>
    by_cases h1 : env.fetchCost n.Path > t
    · simp [hydrate, h1, ih]
    · by_cases h2 : env.fetchFails n.Path = true
      · simp [hydrate, h1, h2, ih]
      · cases hg : exactGet env.store n.Path with
        | nil => simp [hydrate, h1, h2, hg, ih]
        | cons kv rest => simp [hydrate, h1, h2, hg, ih]

theorem hydrate_map_path (env : ListEnv) :
    ∀ (t : Nat) (ns : List Node),
      (hydrate env t ns).1.map Node.Path = ns.map Node.Path := by
  intro t ns
  induction ns generalizing t with
  | nil => rfl
  | cons n ns ih =>
    by_cases h1 : env.fetchCost n.Path > t
    · simp [hydrate, h1, ih]
    · by_cases h2 : env.fetchFails n.Path = true
      · simp [hydrate, h1, h2, ih]
      · cases hg : exactGet env.store n.Path with
        | nil => simp [hydrate, h1, h2, hg, ih]
        | cons kv rest => simp [hydrate, h1, h2, hg, ih]

theorem hydrate_rel (env : ListEnv) :
    ∀ (t : Nat) (ns : List Node),
      List.Forall₂ (fun a b => b.Path = a.Path ∧ b.IsDir = a.IsDir ∧
        (env.fetchFails a.Path = true → b.Value = a.Value))
        ns (hydrate env t ns).1 := by
  intro t ns
  induction ns generalizing t with
  | nil => exact List.Forall₂.nil
  | cons n ns ih =>
    by_cases h1 : env.fetchCost n.Path > t
    · simpa [hydrate, h1] using
        List.Forall₂.cons (a := n) (b := n) ⟨rfl, rfl, fun _ => rfl⟩ (ih 0)
    · by_cases h2 : env.fetchFails n.Path = true
      · simpa [hydrate, h1, h2] using
          List.Forall₂.cons (a := n) (b := n) ⟨rfl, rfl, fun _ => rfl⟩
            (ih (t - env.fetchCost n.Path))
      · cases hg : exactGet env.store n.Path with
        | nil =>
          simpa [hydrate, h1, h2, hg] using
            List.Forall₂.cons (a := n) (b := n) ⟨rfl, rfl, fun _ => rfl⟩
              (ih (t - env.fetchCost n.Path))
        | cons kv rest =>
          simpa [hydrate, h1, h2, hg] using
            List.Forall₂.cons (a := n) (b := { n with Value := kv.2 })
              ⟨rfl, rfl, fun hx => absurd hx h2⟩ (ih (t - env.fetchCost n.Path))

theorem forall₂_mem_right {α β : Type} {R : α → β → Prop} :
    ∀ {xs : List α} {ys : List β}, List.Forall₂ R xs ys →
      ∀ y ∈ ys, ∃ x ∈ xs, R x y := by
  intro xs ys h
  induction h with
  | nil => simp
  | cons hR htail ih =>
    intro y hy
    rcases List.mem_cons.mp hy with hy1 | hy2
    · exact ⟨_, List.mem_cons_self _ _, hy1 ▸ hR⟩
    · obtain ⟨x, hx, hxy⟩ := ih y hy2
      exact ⟨x, List.mem_cons_of_mem _ hx, hxy⟩

theorem mem_dedupAux (x : Node) :
    ∀ (l acc : List Node), x ∈ dedupAux acc l → x ∈ acc ∨ x ∈ l := by
  intro l
  induction l with
  | nil => intro acc h; exact Or.inl h
  | cons n ns ih =>
    intro acc h
    by_cases hc : acc.any (fun m => decide (m.Path = n.Path)) = true
    · rcases ih acc (by simpa [dedupAux, hc] using h) with h1 | h1
      · exact Or.inl h1
      · exact Or.inr (List.mem_cons_of_mem _ h1)
    · rcases ih (acc ++ [n]) (by simpa [dedupAux, hc] using h) with h1 | h1
      · rcases List.mem_append.mp h1 with h2 | h2
        · exact Or.inl h2
        · exact Or.inr (List.mem_cons.mpr (Or.inl (by simpa using h2)))
      · exact Or.inr (List.mem_cons_of_mem _ h1)

theorem convertEntry_value (p : Str) (kv : Str × Str) (n : Node)
    (h : convertEntry p kv = some n) : n.Value = [] := by
  simp only [convertEntry] at h
  by_cases h1 : kv.1.drop p.length = []
  · rw [if_pos h1] at h
    exact absurd h (by simp)
  · rw [if_neg h1] at h
    by_cases h2 : (firstChunk (kv.1.drop p.length)).length <
        (kv.1.drop p.length).length
    · rw [if_pos h2] at h
      rw [← Option.some.inj h]
    · rw [if_neg h2] at h
      rw [← Option.some.inj h]

theorem value_empty_of_mem_convert (p : Str) (kvs : List (Str × Str)) :
    ∀ n ∈ ConvertToPath p kvs, n.Value = [] := by
  intro n hn
  rcases mem_dedupAux n (kvs.filterMap (convertEntry p)) [] hn with h | h
  · simp at h
  · obtain ⟨kv, _, hkv⟩ := List.mem_filterMap.mp h
    exact convertEntry_value p kv n hkv

theorem mem_sortNodes (l : List Node) (n : Node) :
    n ∈ sortNodes l ↔ n ∈ l :=
  (List.perm_insertionSort nodeLe l).mem_iff

/-- Shared shape of a successful `List` call: either the scan matched
nothing, or the result and the fetch trace come from hydrating the
sorted conversion under the remaining shared budget. -/
theorem sdkList_ok_cases (env : ListEnv) (p : Str) (l : List Node)
    (h : (sdkList env p).result = .ok l) :
    (scanKeysOnly env.store p = [] ∧ l = [] ∧ (sdkList env p).fetched = []) ∨
    (l = (hydrate env (DefaultTimeout - env.scanCost)
           (sortNodes (ConvertToPath p (scanKeysOnly env.store p)))).1 ∧
     (sdkList env p).fetched = (hydrate env (DefaultTimeout - env.scanCost)
           (sortNodes (ConvertToPath p (scanKeysOnly env.store p)))).2) := by
  by_cases h1 : env.scanCost > DefaultTimeout
  · simp [sdkList, h1] at h
  · by_cases h2 : env.scanFails = true
    · simp [sdkList, h1, h2] at h
    · by_cases h3 : (scanKeysOnly env.store p).length = 0
      · left
        have he : scanKeysOnly env.store p = [] := List.length_eq_zero.mp h3
        have : l = [] := by simpa [sdkList, h1, h2, h3] using h.symm
        exact ⟨he, this, by simp [sdkList, h1, h2, h3]⟩
      · right
        have : l = (hydrate env (DefaultTimeout - env.scanCost)
            (sortNodes (ConvertToPath p (scanKeysOnly env.store p)))).1 := by
          simpa [sdkList, h1, h2, h3] using h.symm
        exact ⟨this, by simp [sdkList, h1, h2, h3]⟩

/-- C2: any listing returned successfully is sorted ascending by `Path`
under the lexicographic byte-wise order — whatever order the store
returned the scanned keys in, since the environment's store order is
arbitrary. -/
theorem sdkList_sorted (env : ListEnv) (p : Str) (l : List Node)
    (h : (sdkList env p).result = .ok l) : List.Sorted nodeLe l := by
  rcases sdkList_ok_cases env p l h with ⟨_, hl, _⟩ | ⟨hl, _⟩
  · rw [hl]
    exact List.sorted_nil
  · have hs : List.Sorted nodeLe
        (sortNodes (ConvertToPath p (scanKeysOnly env.store p))) :=
      List.sorted_insertionSort nodeLe _
    have hmap : l.map Node.Path =
        (sortNodes (ConvertToPath p (scanKeysOnly env.store p))).map Node.Path := by
      rw [hl]
      exact hydrate_map_path env _ _
    have h2 : ((sortNodes (ConvertToPath p (scanKeysOnly env.store p))).map
        Node.Path).Pairwise (· ≤ ·) := List.pairwise_map.mpr hs
    rw [← hmap] at h2
    have h3 : l.Pairwise (fun a b => a.Path ≤ b.Path) := List.pairwise_map.mp h2
    exact h3

theorem sdkList_sorted_witness :
    (sdkList ⟨[(str "/a/z", str "1"), (str "/a/b/x", str "2"), (str "/a/a", str "3")],
        0, false, fun _ => 0, fun _ => false⟩ (str "/a")).result =
      .ok [⟨str "/a/a", str "3", false⟩, ⟨str "/a/b", [], true⟩,
           ⟨str "/a/z", str "1", false⟩] ∧
    List.Sorted nodeLe
      [⟨str "/a/a", str "3", false⟩, ⟨str "/a/b", [], true⟩,
       ⟨str "/a/z", str "1", false⟩] :=
  ⟨rfl,
   sdkList_sorted
     ⟨[(str "/a/z", str "1"), (str "/a/b/x", str "2"), (str "/a/a", str "3")],
      0, false, fun _ => 0, fun _ => false⟩ (str "/a")
     [⟨str "/a/a", str "3", false⟩, ⟨str "/a/b", [], true⟩,
      ⟨str "/a/z", str "1", false⟩] rfl⟩

/-- C5 (counterexample to the claim as stated): a store holding only
`/a/c/d`, listed under `/a`.  The only produced Node is the directory
`/a/c` (no value), yet the fetch trace shows a follow-up single-key
fetch was issued for it — the loop has no directory check, so fetches
are not restricted to non-directory Nodes. -/
theorem sdkList_dir_fetch_cex :
    sdkList ⟨[(str "/a/c/d", str "2")], 0, false, fun _ => 0, fun _ => false⟩
        (str "/a") =
      ⟨.ok [⟨str "/a/c", [], true⟩], [str "/a/c"]⟩ := rfl

/-- C5 (amended): during a successful `List` call a follow-up single-key
fetch is issued for every returned Node — directories included, since
the loop has no directory check — in listing order; and a failure of any
one follow-up fetch leaves that Node's value empty without aborting the
listing or dropping the Node (the trace covers exactly the returned
nodes). -/
theorem sdkList_fetch_every_node (env : ListEnv) (p : Str) (l : List Node)
    (h : (sdkList env p).result = .ok l) :
    (sdkList env p).fetched = l.map Node.Path ∧
    ∀ n ∈ l, env.fetchFails n.Path = true → n.Value = [] := by
  rcases sdkList_ok_cases env p l h with ⟨_, hl, hf⟩ | ⟨hl, hf⟩
  · subst hl
    exact ⟨by rw [hf]; rfl, by simp⟩
  · constructor
    · rw [hf, hydrate_fetched, hl, hydrate_map_path]
    · intro n hn hfail
      have hrel := hydrate_rel env (DefaultTimeout - env.scanCost)
        (sortNodes (ConvertToPath p (scanKeysOnly env.store p)))
      have hn2 : n ∈ (hydrate env (DefaultTimeout - env.scanCost)
          (sortNodes (ConvertToPath p (scanKeysOnly env.store p)))).1 := by
        rw [← hl]
        exact hn
      obtain ⟨a, ha, hPath, _, hVal⟩ := forall₂_mem_right hrel n hn2
      have haval : a.Value = [] :=
        value_empty_of_mem_convert p (scanKeysOnly env.store p) a
          ((mem_sortNodes _ a).mp ha)
      have hv : n.Value = a.Value := hVal (by rw [← hPath]; exact hfail)
      rw [hv, haval]

theorem sdkList_fetch_every_node_witness :
    (sdkList ⟨[(str "/a/b", str "1"), (str "/a/c/d", str "2")], 0, false,
        fun _ => 0, fun q => decide (q = str "/a/b")⟩ (str "/a")).result =
      .ok [⟨str "/a/b", [], false⟩, ⟨str "/a/c", [], true⟩] ∧
    (sdkList ⟨[(str "/a/b", str "1"), (str "/a/c/d", str "2")], 0, false,
        fun _ => 0, fun q => decide (q = str "/a/b")⟩ (str "/a")).fetched =
      ([⟨str "/a/b", [], false⟩, ⟨str "/a/c", [], true⟩] : List Node).map
        Node.Path ∧
    ∀ n ∈ ([⟨str "/a/b", [], false⟩, ⟨str "/a/c", [], true⟩] : List Node),
      (fun q => decide (q = str "/a/b")) n.Path = true → n.Value = [] :=
  ⟨rfl,
   (sdkList_fetch_every_node
     ⟨[(str "/a/b", str "1"), (str "/a/c/d", str "2")], 0, false,
      fun _ => 0, fun q => decide (q = str "/a/b")⟩ (str "/a")
     [⟨str "/a/b", [], false⟩, ⟨str "/a/c", [], true⟩] rfl).1,
   (sdkList_fetch_every_node
     ⟨[(str "/a/b", str "1"), (str "/a/c/d", str "2")], 0, false,
      fun _ => 0, fun q => decide (q = str "/a/b")⟩ (str "/a")
     [⟨str "/a/b", [], false⟩, ⟨str "/a/c", [], true⟩] rfl).2⟩

/-- C6 (counterexample to the claim as stated): the scan takes 1 of the
5 budget units and the single follow-up fetch demands 10, so the shared
deadline is exceeded during the per-key fetch loop — yet the call
returns `.ok` with the node's value left empty instead of surfacing a
`TimeoutError`: the loop swallows the deadline error. -/
theorem sdkList_loop_timeout_cex :
    DefaultTimeout <
      (⟨[(str "/a/b", str "1")], 1, false, fun _ => 10, fun _ => false⟩ :
        ListEnv).scanCost +
      (⟨[(str "/a/b", str "1")], 1, false, fun _ => 10, fun _ => false⟩ :
        ListEnv).fetchCost (str "/a/b") ∧
    sdkList ⟨[(str "/a/b", str "1")], 1, false, fun _ => 10, fun _ => false⟩
        (str "/a") =
      ⟨.ok [⟨str "/a/b", [], false⟩], [str "/a/b"]⟩ :=
  ⟨by decide, rfl⟩

/-- C6 (amended): the scan and every per-key fetch run under one shared
bounded deadline (a single budget covers both); a deadline exceedance
during the initial scan surfaces a timeout error to the caller, but once
the scan has succeeded the call always ends in `.ok` — a deadline
exceedance inside the per-key fetch loop is logged and skipped, never
surfaced. -/
theorem sdkList_deadline_policy (env : ListEnv) (p : Str) :
    (env.scanCost > DefaultTimeout → sdkList env p = ⟨.error .timeout, []⟩) ∧
    (env.scanCost ≤ DefaultTimeout → env.scanFails = false →
      ∃ l, (sdkList env p).result = .ok l) := by
  constructor
  · intro h
    simp [sdkList, h]
  · intro h1 h2
    by_cases h3 : (scanKeysOnly env.store p).length = 0
    · refine ⟨[], ?_⟩
      simp [sdkList, Nat.not_lt.mpr h1, h2, h3]
    · refine ⟨(hydrate env (DefaultTimeout - env.scanCost)
        (sortNodes (ConvertToPath p (scanKeysOnly env.store p)))).1, ?_⟩
      simp [sdkList, Nat.not_lt.mpr h1, h2, h3]

theorem sdkList_deadline_policy_witness :
    sdkList ⟨[], 9, false, fun _ => 0, fun _ => false⟩ (str "/a") =
      ⟨.error .timeout, []⟩ ∧
    ∃ l, (sdkList ⟨[(str "/a/b", str "1")], 1, false, fun _ => 10,
      fun _ => false⟩ (str "/a")).result = .ok l :=
  ⟨(sdkList_deadline_policy ⟨[], 9, false, fun _ => 0, fun _ => false⟩
      (str "/a")).1 (by decide),
   (sdkList_deadline_policy
      ⟨[(str "/a/b", str "1")], 1, false, fun _ => 10, fun _ => false⟩
      (str "/a")).2 (by decide) rfl⟩

/-! ### One-level structure of the conversion -/

theorem firstChunk_ne_nil (r : Str) (h : r ≠ []) : firstChunk r ≠ [] := by
  cases r with
  | nil => exact absurd rfl h
  | cons c rest => simp [firstChunk]

theorem firstChunk_le : ∀ r : Str, firstChunk r <+: r
  | [] => List.nil_prefix
  | c :: rest => by
    obtain ⟨t, ht⟩ := List.takeWhile_prefix (l := rest) (fun d => decide (d ≠ '/'))
    exact ⟨t, by rw [firstChunk, List.cons_append, ht]⟩

theorem firstChunk_tail_no_slash : ∀ r : Str, '/' ∉ (firstChunk r).tail := by
  intro r
  cases r with
  | nil => simp [firstChunk]
  | cons c rest =>
    simp only [firstChunk, List.tail_cons]
    intro hmem
    have := List.mem_takeWhile_imp hmem
    simp at this

theorem firstChunk_eq_of_not_lt (r : Str)
    (h : ¬ (firstChunk r).length < r.length) : firstChunk r = r :=
  (firstChunk_le r).eq_of_length
    (Nat.le_antisymm (firstChunk_le r).length_le (Nat.le_of_not_lt h))

theorem convertEntry_append (p t v : Str) (ht : t ≠ []) :
    ∃ b : Bool, convertEntry p (p ++ t, v) = some ⟨p ++ firstChunk t, [], b⟩ := by
  have hd : (p ++ t).drop p.length = t := List.drop_left p t
  by_cases hlt : (firstChunk t).length < t.length
  · refine ⟨true, ?_⟩
    simp only [convertEntry, hd]
    rw [if_neg ht, if_pos hlt]
  · refine ⟨false, ?_⟩
    simp only [convertEntry, hd]
    rw [if_neg ht, if_neg hlt, firstChunk_eq_of_not_lt t hlt]

theorem mem_dedupAux_of_mem_acc :
    ∀ (l acc : List Node) (x : Node), x ∈ acc → x ∈ dedupAux acc l := by
  intro l
  induction l with
  | nil => intro acc x h; exact h
  | cons n ns ih =>
    intro acc x hx
    by_cases hc : acc.any (fun m => decide (m.Path = n.Path)) = true
    · simpa [dedupAux, hc] using ih acc x hx
    · simpa [dedupAux, hc] using ih (acc ++ [n]) x (List.mem_append_left _ hx)

theorem dedupAux_covers : ∀ (l acc : List Node) (y : Node), y ∈ l →
    ∃ x ∈ dedupAux acc l, x.Path = y.Path := by
  intro l
  induction l with
  | nil => intro acc y h; simp at h
  | cons n ns ih =>
    intro acc y hy
    by_cases hc : acc.any (fun m => decide (m.Path = n.Path)) = true
    · rcases List.mem_cons.mp hy with rfl | hy2
      · obtain ⟨m, hm, hmp⟩ := List.any_eq_true.mp hc
        refine ⟨m, ?_, by simpa using hmp⟩
        simpa [dedupAux, hc] using mem_dedupAux_of_mem_acc ns acc m hm
      · simpa [dedupAux, hc] using ih acc y hy2
    · rcases List.mem_cons.mp hy with rfl | hy2
      · refine ⟨y, ?_, rfl⟩
        simpa [dedupAux, hc] using
          mem_dedupAux_of_mem_acc ns (acc ++ [y]) y (by simp)
      · simpa [dedupAux, hc] using ih (acc ++ [n]) y hy2

theorem dedupAux_pairwise : ∀ (l acc : List Node),
    acc.Pairwise (fun a b => a.Path ≠ b.Path) →
    (dedupAux acc l).Pairwise (fun a b => a.Path ≠ b.Path) := by
  intro l
  induction l with
  | nil => intro acc h; exact h
  | cons n ns ih =>
    intro acc hacc
    by_cases hc : acc.any (fun m => decide (m.Path = n.Path)) = true
    · simpa [dedupAux, hc] using ih acc hacc
    · have hcf : acc.any (fun m => decide (m.Path = n.Path)) = false := by
        simpa using hc
      have hcross : ∀ a ∈ acc, ∀ b ∈ [n], a.Path ≠ b.Path := by
        intro a ha b hb
        have h2 := List.any_eq_false.mp hcf a ha
        rw [List.mem_singleton.mp hb]
        simpa using h2
      simpa [dedupAux, hc] using ih (acc ++ [n])
        (List.pairwise_append.mpr ⟨hacc, List.pairwise_singleton _ _, hcross⟩)

/-- The first path segment after the query path of one scanned key:
`none` when the key equals the query path exactly. -/
def firstSegAfter (p : Str) (k : Str) : Option Str :=
  if k.drop p.length = [] then none else some (firstChunk (k.drop p.length))

/-- The first segments after `p` occurring in a scan result (with
repetitions; the conversion is in bijection with the distinct ones). -/
def segsUnder (p : Str) (S : List (Str × Str)) : List Str :=
  S.filterMap (fun kv => firstSegAfter p kv.1)

theorem convertEntry_of_scan (p : Str) (kv : Str × Str) (hpre : p <+: kv.1)
    (ht : kv.1.drop p.length ≠ []) :
    ∃ b : Bool, convertEntry p kv =
      some ⟨p ++ firstChunk (kv.1.drop p.length), [], b⟩ := by
  obtain ⟨t, htdef⟩ := hpre
  obtain ⟨k1, v1⟩ := kv
  simp only at htdef ht ⊢
  subst htdef
  have ht2 : (p ++ t).drop p.length = t := List.drop_left p t
  rw [ht2]
  rw [ht2] at ht
  exact convertEntry_append p t v1 ht

theorem convert_node_form (p : Str) (S : List (Str × Str))
    (hscan : ∀ kv ∈ S, p <+: kv.1) (n : Node) (hn : n ∈ ConvertToPath p S) :
    ∃ kv ∈ S, kv.1.drop p.length ≠ [] ∧
      n.Path = p ++ firstChunk (kv.1.drop p.length) := by
  rcases mem_dedupAux n (S.filterMap (convertEntry p)) [] hn with h | h
  · simp at h
  · obtain ⟨kv, hkv, hce⟩ := List.mem_filterMap.mp h
    by_cases ht : kv.1.drop p.length = []
    · have hk : p ++ kv.1.drop p.length = kv.1 :=
        List.prefix_iff_eq_append.mp (hscan kv hkv)
      rw [ht, List.append_nil] at hk
      have h0 : convertEntry p kv = none := by
        obtain ⟨k1, v1⟩ := kv
        simp only at hk
        rw [← hk]
        exact convertEntry_self p v1
      rw [h0] at hce
      exact absurd hce (by simp)
    · obtain ⟨b, hb⟩ := convertEntry_of_scan p kv (hscan kv hkv) ht
      rw [hb] at hce
      exact ⟨kv, hkv, ht, by rw [← Option.some.inj hce]⟩

theorem convert_paths_iff (p : Str) (S : List (Str × Str))
    (hscan : ∀ kv ∈ S, p <+: kv.1) (q : Str) :
    (∃ n ∈ ConvertToPath p S, n.Path = q) ↔
    ∃ seg ∈ segsUnder p S, q = p ++ seg := by
  constructor
  · rintro ⟨n, hn, rfl⟩
    obtain ⟨kv, hkv, ht, hpath⟩ := convert_node_form p S hscan n hn
    refine ⟨firstChunk (kv.1.drop p.length), ?_, hpath⟩
    exact List.mem_filterMap.mpr ⟨kv, hkv, by simp [firstSegAfter, ht]⟩
  · rintro ⟨seg, hseg, rfl⟩
    obtain ⟨kv, hkv, hfs⟩ := List.mem_filterMap.mp hseg
    by_cases ht : kv.1.drop p.length = []
    · simp [firstSegAfter, ht] at hfs
    · have hseg2 : seg = firstChunk (kv.1.drop p.length) := by
        simp only [firstSegAfter, if_neg ht, Option.some.injEq] at hfs
        exact hfs.symm
      obtain ⟨b, hb⟩ := convertEntry_of_scan p kv (hscan kv hkv) ht
      have hmem : (⟨p ++ firstChunk (kv.1.drop p.length), [], b⟩ : Node) ∈
          S.filterMap (convertEntry p) :=
        List.mem_filterMap.mpr ⟨kv, hkv, hb⟩
      obtain ⟨x, hx, hxp⟩ :=
        dedupAux_covers (S.filterMap (convertEntry p)) [] _ hmem
      refine ⟨x, hx, ?_⟩
      rw [hxp, hseg2]

/-- C1: for a scan result whose keys all extend the query path, the
conversion produces nodes with pairwise distinct paths, each of them the
query path extended by one further non-empty separator-free segment; a
path is produced exactly when it is the query path followed by a first
segment occurring in the scan (and prepending the query path is
injective, so the distinct produced paths are in bijection with the
distinct first segments); and an entry whose full key equals the query
path exactly contributes no node. -/
theorem ConvertToPath_one_level (p : Str) (S : List (Str × Str))
    (hscan : ∀ kv ∈ S, p <+: kv.1) :
    (ConvertToPath p S).Pairwise (fun a b => a.Path ≠ b.Path) ∧
    (∀ n ∈ ConvertToPath p S, ∃ s : Str, s ≠ [] ∧ '/' ∉ s.tail ∧
      n.Path = p ++ s) ∧
    (∀ q : Str, (∃ n ∈ ConvertToPath p S, n.Path = q) ↔
      ∃ seg ∈ segsUnder p S, q = p ++ seg) ∧
    (∀ s1 s2 : Str, p ++ s1 = p ++ s2 → s1 = s2) ∧
    (∀ (v : Str) (S2 : List (Str × Str)),
      ConvertToPath p ((p, v) :: S2) = ConvertToPath p S2) := by
  refine ⟨?_, ?_, ?_, ?_, ?_⟩
  · exact dedupAux_pairwise (S.filterMap (convertEntry p)) [] List.Pairwise.nil
  · intro n hn
    obtain ⟨kv, _, ht, hpath⟩ := convert_node_form p S hscan n hn
    exact ⟨firstChunk (kv.1.drop p.length),
      firstChunk_ne_nil _ ht, firstChunk_tail_no_slash _, hpath⟩
  · exact convert_paths_iff p S hscan
  · intro s1 s2 h
    simpa using h
  · intro v S2
    simp [ConvertToPath, List.filterMap_cons, convertEntry_self]

theorem ConvertToPath_one_level_witness :
    (∀ kv ∈ [(str "/a/b", str "1"), (str "/a/c/d", str "2"),
              (str "/a/c/e", str "3"), (str "/a", str "x")],
       str "/a" <+: kv.1) ∧
    (ConvertToPath (str "/a")
      [(str "/a/b", str "1"), (str "/a/c/d", str "2"),
       (str "/a/c/e", str "3"), (str "/a", str "x")]).Pairwise
      (fun a b => a.Path ≠ b.Path) :=
  ⟨by decide,
   (ConvertToPath_one_level (str "/a")
     [(str "/a/b", str "1"), (str "/a/c/d", str "2"),
      (str "/a/c/e", str "3"), (str "/a", str "x")] (by decide)).1⟩
